import Mathlib

/-!
# Verification of the Traindown parser (`parser.go`)

A shallow embedding of the Go source `parser.go` of `Traindown/traindown-go`.
Go slices become `List`, Go `string` values become Lean `String`, Go `int`
(64-bit) becomes `Int` with explicit range checks where the source checks
ranges, and the Go `map[string]interface{}` metadata becomes an
association list with replace-on-existing-key insertion.  Go `float32`
values are the type `GoFloat32`: a finite value (held exactly as a
rational — every finite `float32` is one), an infinity, or NaN;
`goParseFloat32` models `strconv.ParseFloat(s, 32)` including the special
`Inf`/`NaN` spellings, Go's underscore rule, hexadecimal literals, IEEE 754
round-to-nearest-even to `float32` precision, overflow to `ErrRange` and
silent underflow to zero.  A Go panic (out-of-range slice index) is
represented by `Option`: `none` is an aborted (panicked) parse.

The lexer (`NewLexer`, `Scan`, the `Token` type's internals) lives in a
repository file that is not part of the sources considered here; the parser
only consumes `tok.Name()` and `tok.Value()`, so a `Token` is modelled as a
pair of strings, and the lexer itself is a parameter of the entry points.
-/

namespace Traindown

/-- Modelled from the spec: a `Token` is an immutable value pairing a token
kind with its raw textual payload; the builder consumes it through
`Name()` and `Value()` only.  The lexer that produces tokens is outside
these sources. -/
structure Token where
  name : String
  value : String
deriving Repr, DecidableEq

/-- `Metadata` (Go: `map[string]interface{}`, only ever assigned string
values by the parser): modelled as an association list with Go map
assignment semantics (`mdAssign` below replaces an existing key). -/
abbrev Metadata := List (String × String)

/-- Go map assignment `md[key] = value`: replace the binding when the key is
present, otherwise add it. -/
def mdAssign : Metadata → String → String → Metadata
  | [], k, v => [(k, v)]
  | (k0, v0) :: rest, k, v =>
    if k0 = k then (k, v) :: rest else (k0, v0) :: mdAssign rest k v

/-- A Go `float32` as the builder observes it: a finite value kept exactly
as a rational (every finite `float32` is a rational; positive and negative
zero are identified, which no observation in the parser distinguishes), an
infinity, or NaN. -/
inductive GoFloat32 where
  | finite (val : ℚ)
  | inf (neg : Bool)
  | nan
deriving Repr, DecidableEq

instance : OfNat GoFloat32 0 :=
  ⟨GoFloat32.finite 0⟩

/-- `Performance` struct from `parser.go`. -/
structure Performance where
  Fails : Int
  Load : GoFloat32
  PercentOfMax : GoFloat32
  Reps : Int
  Sequence : Int
  Sets : Int
  Unit : String
  Metadata : Metadata
  Notes : List String
deriving Repr, DecidableEq

/-- `NewPerformance` from `parser.go`: `Reps` and `Sets` start at 1, every
other field at its Go zero value. -/
def NewPerformance : Performance :=
  { Fails := 0, Load := 0, PercentOfMax := 0, Reps := 1, Sequence := 0,
    Sets := 1, Unit := "", Metadata := [], Notes := [] }

/-- `Movement` struct from `parser.go`. -/
structure Movement where
  Name : String
  Sequence : Int
  SuperSet : Bool
  Performances : List Performance
  Metadata : Metadata
  Notes : List String
deriving Repr, DecidableEq

/-- `NewMovement` from `parser.go`: all fields at their Go zero values,
collections empty. -/
def NewMovement : Movement :=
  { Name := "", Sequence := 0, SuperSet := false, Performances := [],
    Metadata := [], Notes := [] }

/-- The diagnostics the parser appends to `Session.Errors`.  The Go code
builds them with `fmt.Errorf`; only their presence and count matter here, so
they are modelled structurally: `failedParse what value` is
`"Failed to parse %q: %q"` from `intValue` / `floatValue`, and
`failedDate value` is the `"Failed to parse date ..."` diagnostic carrying
the offending raw value. -/
inductive GoError where
  | failedParse (what : String) (value : String)
  | failedDate (value : String)
deriving Repr, DecidableEq

/-- `Session` struct from `parser.go`.  `time.Time` is modelled as an
abstract instant `Int`. -/
structure Session where
  Date : Int
  Errors : List GoError
  Movements : List Movement
  Metadata : Metadata
  Notes : List String
deriving Repr, DecidableEq

/-- `NewSession` from `parser.go`. -/
def NewSession : Session :=
  { Date := 0, Errors := [], Movements := [], Metadata := [], Notes := [] }

/-- Numeric value of a list of decimal digit characters. -/
def digitsVal (cs : List Char) : Nat :=
  cs.foldl (fun a c => a * 10 + (c.toNat - 48)) 0

/-- Go `strconv.Atoi`: an optional sign followed by one or more decimal
digits, with the result required to fit in a 64-bit `int`; everything else
is an error (`none`).  (Underscores are not accepted at base 10.) -/
def goAtoi (s : String) : Option Int :=
  match s.toList with
  | [] => none
  | c :: rest =>
    let signed : Bool × List Char :=
      if c = '-' then (true, rest)
      else if c = '+' then (false, rest) else (false, c :: rest)
    match signed with
    | (neg, digits) =>
      if digits = [] then none
      else if digits.all Char.isDigit then
        let v : Int := if neg then -(digitsVal digits : Int) else (digitsVal digits : Int)
        if -(2 ^ 63) ≤ v ∧ v < 2 ^ 63 then some v else none
      else none

/-- `intValue` from `parser.go`: returns the parsed integer and no error, or
0 together with a `Failed to parse` diagnostic. -/
def intValue (s : String) (t : String) : Int × Option GoError :=
  match goAtoi s with
  | some i => (i, none)
  | none => (0, GoError.failedParse t s)

/-- Case-insensitive whole-string match against a lower-case letter
pattern, as `strconv`'s `special` compares (ASCII `c | 0x20`). -/
def matchCaseless : List Char → List Char → Bool
  | [], [] => true
  | c :: cs, p :: ps => (c.toNat ||| 32 == p.toNat ||| 32) && matchCaseless cs ps
  | _, _ => false

/-- The `special` recognizer inside `strconv.ParseFloat`: an optionally
signed `inf` or `infinity`, or an unsigned `nan`, case-insensitive and
consuming the whole string (a sign followed by `nan` is not special). -/
def goSpecial (cs : List Char) : Option GoFloat32 :=
  match cs with
  | [] => none
  | c :: rest =>
    if c = '+' ∨ c = '-' then
      if matchCaseless rest ['i', 'n', 'f'] ∨
          matchCaseless rest ['i', 'n', 'f', 'i', 'n', 'i', 't', 'y'] then
        some (GoFloat32.inf (c = '-'))
      else none
    else if matchCaseless cs ['i', 'n', 'f'] ∨
        matchCaseless cs ['i', 'n', 'f', 'i', 'n', 'i', 't', 'y'] then
      some (GoFloat32.inf false)
    else if matchCaseless cs ['n', 'a', 'n'] then some GoFloat32.nan
    else none

/-- Value of one hexadecimal digit, `none` on any other character. -/
def hexDigitVal (c : Char) : Option Nat :=
  if c.isDigit then some (c.toNat - 48)
  else if 'a' ≤ c ∧ c ≤ 'f' then some (c.toNat - 87)
  else if 'A' ≤ c ∧ c ≤ 'F' then some (c.toNat - 55)
  else none

/-- Hexadecimal digit test (`0-9a-fA-F`). -/
def isHexDigitChar (c : Char) : Bool :=
  (hexDigitVal c).isSome

/-- Numeric value of a list of hexadecimal digit characters. -/
def hexVal (cs : List Char) : Nat :=
  cs.foldl (fun a c => a * 16 + (hexDigitVal c).getD 0) 0

/-- The scanning loop of `strconv`'s `underscoreOK`: `saw` is `'0'` after a
digit (or the base prefix), `'_'` after an underscore, `'!'` after any
other character, `'^'` at the start.  An underscore must follow a digit
and be followed by a digit, and must not end the string. -/
def uscanGo (hex : Bool) : Char → List Char → Bool
  | saw, [] => if saw = '_' then false else true
  | saw, c :: rest =>
    if c.isDigit || (hex && isHexDigitChar c) then uscanGo hex '0' rest
    else if c = '_' then
      if saw = '0' then uscanGo hex '_' rest else false
    else if saw = '_' then false
    else uscanGo hex '!' rest

/-- Go `strconv.underscoreOK`: underscores are allowed only between
successive digits or between a base prefix and a digit. -/
def underscoreOK (cs : List Char) : Bool :=
  let cs1 := match cs with
    | c :: rest => if c = '+' ∨ c = '-' then rest else cs
    | [] => cs
  match cs1 with
  | c0 :: c1 :: rest =>
    if c0 = '0' ∧ (c1 = 'b' ∨ c1 = 'B' ∨ c1 = 'o' ∨ c1 = 'O' ∨ c1 = 'x' ∨ c1 = 'X') then
      uscanGo (c1 == 'x' || c1 == 'X') '0' rest
    else uscanGo false '^' cs1
  | _ => uscanGo false '^' cs1

/-- Round the positive rational `a / b` to the nearest integer, ties to
even (IEEE 754 round-to-nearest-even at integer granularity). -/
def roundHalfEvenNat (a b : Nat) : Nat :=
  let f := a / b
  let r := a % b
  if 2 * r < b then f
  else if b < 2 * r then f + 1
  else if f % 2 = 0 then f else f + 1

/-- The binade of `a / b` clamped to `float32`'s range: the largest `e` in
`[-126, 127]` with `2 ^ e ≤ a / b`, or `-126` when the value is below the
normal range (the subnormal unit then coincides with binade `-126`'s).
Called with fuel 254 so `k = 253` corresponds to `e = 127`. -/
def findExp (a b : Nat) : Nat → Int
  | 0 => -126
  | k + 1 =>
    let e : Int := (k : Int) - 126
    let le : Bool :=
      if 0 ≤ e then decide (2 ^ e.toNat * b ≤ a) else decide (b ≤ a * 2 ^ (-e).toNat)
    if le then e else findExp a b k

/-- Round the exact positive magnitude `a / b` to `float32`
(round-to-nearest-even): `none` is overflow — the rounded magnitude
reaching `2 ^ 128`, which `strconv` reports as `ErrRange`; this happens
exactly when `a / b ≥ 2 ^ 128 - 2 ^ 103`, the midpoint above the largest
finite `float32`.  Otherwise the exact rational value of the resulting
finite `float32`, which is `0` on underflow (reported by Go without
error). -/
def roundFloat32 (neg : Bool) (a b : Nat) : Option ℚ :=
  if (2 ^ 128 - 2 ^ 103) * b ≤ a then none
  else
    let ulp : Int := findExp a b 254 - 23
    let n : Nat :=
      if 0 ≤ ulp then roundHalfEvenNat a (b * 2 ^ ulp.toNat)
      else roundHalfEvenNat (a * 2 ^ (-ulp).toNat) b
    let mag : ℚ :=
      if 0 ≤ ulp then mkRat (n * 2 ^ ulp.toNat) 1 else mkRat n (2 ^ (-ulp).toNat)
    some (if neg then -mag else mag)

/-- A decimal mantissa and power of ten to `float32`: `mant` is the value
of the `nd` mantissa digits and `e10` the decimal exponent.  The early
outs (as `strconv`'s `d.dp` cutoffs) keep the arithmetic bounded: a
non-zero mantissa with `e10 ≥ 39` is at least `10 ^ 39`, above the
overflow threshold, and `nd + e10 ≤ -46` bounds the value below
`10 ^ -46 < 2 ^ -150`, which rounds to zero. -/
def decToFloat32 (neg : Bool) (mant : Nat) (nd : Nat) (e10 : Int) : Option ℚ :=
  if mant = 0 then some 0
  else if 39 ≤ e10 then none
  else if (nd : Int) + e10 ≤ -46 then some 0
  else if 0 ≤ e10 then roundFloat32 neg (mant * 10 ^ e10.toNat) 1
  else roundFloat32 neg mant (10 ^ (-e10).toNat)

/-- A hexadecimal mantissa and power of two to `float32`: `mant` is the
value of the `nd` mantissa hex digits and `e2` the binary exponent; early
outs as in `decToFloat32` (`2 ^ e2` already overflows at `e2 ≥ 128`, and
`4 * nd + e2 ≤ -150` bounds the value below `2 ^ -150`). -/
def hexToFloat32 (neg : Bool) (mant : Nat) (nd : Nat) (e2 : Int) : Option ℚ :=
  if mant = 0 then some 0
  else if 128 ≤ e2 then none
  else if 4 * (nd : Int) + e2 ≤ -150 then some 0
  else if 0 ≤ e2 then roundFloat32 neg (mant * 2 ^ e2.toNat) 1
  else roundFloat32 neg mant (2 ^ (-e2).toNat)

/-- The decimal branch of `strconv.ParseFloat` (underscores already
removed): optional digits, optional `.` and fraction digits (at least one
mantissa digit in total), optional `e`/`E` exponent with optional sign and
at least one digit, nothing trailing; the result is rounded to
`float32`. -/
def parseDecMant (neg : Bool) (cs : List Char) : Option GoFloat32 :=
  let intPart := cs.takeWhile Char.isDigit
  let rest1 := cs.dropWhile Char.isDigit
  let fracSplit : List Char × List Char :=
    match rest1 with
    | '.' :: tl => (tl.takeWhile Char.isDigit, tl.dropWhile Char.isDigit)
    | _ => ([], rest1)
  match fracSplit with
  | (fracPart, rest2) =>
    if intPart = [] ∧ fracPart = [] then none
    else
      let readExp : Option Int :=
        match rest2 with
        | [] => some 0
        | e :: tl =>
          if e = 'e' ∨ e = 'E' then
            let esigned : Bool × List Char :=
              match tl with
              | c :: tl2 =>
                if c = '-' then (true, tl2)
                else if c = '+' then (false, tl2) else (false, c :: tl2)
              | [] => (false, [])
            match esigned with
            | (eneg, ecs) =>
              if ecs = [] then none
              else if ecs.all Char.isDigit then
                some (if eneg then -(digitsVal ecs : Int) else (digitsVal ecs : Int))
              else none
          else none
      match readExp with
      | none => none
      | some e =>
        (decToFloat32 neg (digitsVal (intPart ++ fracPart))
            (intPart ++ fracPart).length (e - fracPart.length)).map GoFloat32.finite

/-- The hexadecimal branch of `strconv.ParseFloat` (after the `0x`/`0X`
prefix, underscores already removed): hex digits with optional `.` and hex
fraction (at least one mantissa digit), then a mandatory `p`/`P` exponent
in decimal with optional sign, nothing trailing; the value is
`mant * 2 ^ (p - 4*fracLen)` rounded to `float32`. -/
def parseHexMant (neg : Bool) (cs : List Char) : Option GoFloat32 :=
  let intPart := cs.takeWhile isHexDigitChar
  let rest1 := cs.dropWhile isHexDigitChar
  let fracSplit : List Char × List Char :=
    match rest1 with
    | '.' :: tl => (tl.takeWhile isHexDigitChar, tl.dropWhile isHexDigitChar)
    | _ => ([], rest1)
  match fracSplit with
  | (fracPart, rest2) =>
    if intPart = [] ∧ fracPart = [] then none
    else
      match rest2 with
      | [] => none
      | p :: tl =>
        if p = 'p' ∨ p = 'P' then
          let esigned : Bool × List Char :=
            match tl with
            | c :: tl2 =>
              if c = '-' then (true, tl2)
              else if c = '+' then (false, tl2) else (false, c :: tl2)
            | [] => (false, [])
          match esigned with
          | (eneg, ecs) =>
            if ecs = [] then none
            else if ecs.all Char.isDigit then
              let pexp : Int := if eneg then -(digitsVal ecs : Int) else (digitsVal ecs : Int)
              (hexToFloat32 neg (hexVal (intPart ++ fracPart))
                  (intPart ++ fracPart).length (pexp - 4 * fracPart.length)).map GoFloat32.finite
            else none
        else none

/-- Go `strconv.ParseFloat(s, 32)` as the parser's `floatValue` observes
it: `none` is any error — syntax, or `ErrRange` on overflow (the Go
`floatValue` discards the returned value on any error, so the two need not
be distinguished); `some` is the returned value — a special
`Inf`/`Infinity`/`NaN` spelling, or a decimal or hexadecimal literal
(underscores per `underscoreOK`) rounded to `float32`
(round-to-nearest-even; underflow to zero carries no error in Go). -/
def goParseFloat32 (s : String) : Option GoFloat32 :=
  let cs0 := s.toList
  match goSpecial cs0 with
  | some f => some f
  | none =>
    if cs0.contains '_' && !(underscoreOK cs0) then none
    else
      let cs1 := cs0.filter (fun c => !(c == '_'))
      let signed : Bool × List Char :=
        match cs1 with
        | c :: rest =>
          if c = '-' then (true, rest)
          else if c = '+' then (false, rest) else (false, cs1)
        | [] => (false, cs1)
      match signed with
      | (neg, body) =>
        let hx : Option (List Char) :=
          match body with
          | c0 :: c1 :: rest =>
            if c0 = '0' ∧ (c1 = 'x' ∨ c1 = 'X') then some rest else none
          | _ => none
        match hx with
        | some hbody => parseHexMant neg hbody
        | none => parseDecMant neg body

/-- `floatValue` from `parser.go`: the parsed float and no error, or 0
together with a `Failed to parse` diagnostic (the Go code discards
`ParseFloat`'s value whenever an error — syntax or range — accompanies
it). -/
def floatValue (s : String) (t : String) : GoFloat32 × Option GoError :=
  match goParseFloat32 s with
  | some f => (f, none)
  | none => (0, GoError.failedParse t s)

/-- Go `strings.Split(s, sep)` for the one-character separator `":"` used by
the parser: cut the string at every occurrence of the separator, yielding
one more piece than there are separators (so a string with no separator
yields a single piece).  Operates on the character list of the string. -/
def splitOnChar (sep : Char) : List Char → List (List Char)
  | [] => [[]]
  | c :: rest =>
    if c = sep then [] :: splitOnChar sep rest
    else
      match splitOnChar sep rest with
      | h :: t => (c :: h) :: t
      | [] => [[c]]

/-- Go `strings.Trim(s, " ")`: remove leading and trailing space characters
(only the space character is in the cut set). -/
def trimSpaces (s : String) : String :=
  String.mk (((s.toList.dropWhile (fun c => c = ' ')).reverse.dropWhile
    (fun c => c = ' ')).reverse)

/-- The builder's mutable state inside `parse`: the three current entities
`m`, `p`, `s` and the two scope flags. -/
structure ParseState where
  m : Movement
  p : Performance
  s : Session
  inSession : Bool
  inPerformance : Bool
deriving Repr, DecidableEq

/-- The state `parse` sets up before its token loop. -/
def initState : ParseState :=
  { m := NewMovement, p := NewPerformance, s := NewSession,
    inSession := true, inPerformance := false }

/-- The Go pattern `if err != nil { s.Errors = append(s.Errors, err) }`. -/
def pushErr (s : Session) : Option GoError → Session
  | none => s
  | some e => { s with Errors := s.Errors ++ [e] }

/-- One iteration of the `switch tok.Name()` loop in `parse`
(`parser.go` lines 159–247).  The external `dateparse.ParseAny` library
call is the parameter `parseAny`, and `time.Now()` is the parameter `now`.
`none` models the Go panic (index out of range on `pair[1]`) in the
`METADATA` case when the value contains no `":"`. -/
def stepToken (parseAny : String → Option Int) (now : Int)
    (st : ParseState) (tok : Token) : Option ParseState :=
  if tok.name = "DATE" then
    match parseAny tok.value with
    | none => some { st with s := { st.s with
        Errors := st.s.Errors ++ [GoError.failedDate tok.value],
        Date := now } }
    | some d => some { st with s := { st.s with Date := d } }
  else if tok.name = "FAILS" then
    let r := intValue tok.value ("fails")
    some { st with s := pushErr st.s r.2, p := { st.p with Fails := r.1 } }
  else if tok.name = "LOAD" then
    let st1 := if st.inPerformance then
        { st with
          m := { st.m with Performances := st.m.Performances ++ [st.p] },
          p := NewPerformance }
      else st
    let r := floatValue tok.value ("load")
    some { st1 with
      s := pushErr st1.s r.2,
      p := { st1.p with Load := r.1 },
      inPerformance := true }
  else if tok.name = "METADATA" then
    match splitOnChar ':' tok.value.toList with
    | p0 :: p1 :: _ =>
      let key := trimSpaces (String.mk p0)
      let value := trimSpaces (String.mk p1)
      if st.inSession then
        some { st with s := { st.s with Metadata := mdAssign st.s.Metadata key value } }
      else if st.inPerformance then
        some { st with p := { st.p with Metadata := mdAssign st.p.Metadata key value } }
      else
        some { st with m := { st.m with Metadata := mdAssign st.m.Metadata key value } }
    | _ => none
  else if tok.name = "MOVEMENT" ∨ tok.name = "MOVEMENT_SS" then
    let st1 := { st with inSession := false }
    let st2 := if st1.inPerformance then
        { st1 with
          m := { st1.m with Performances := st1.m.Performances ++ [st1.p] },
          p := NewPerformance }
      else st1
    let st3 := { st2 with inPerformance := false }
    let st4 := if st3.m.Name ≠ "" then
        { st3 with
          s := { st3.s with Movements := st3.s.Movements ++ [st3.m] },
          m := NewMovement }
      else st3
    let m1 := { st4.m with Name := tok.value }
    let m2 := if tok.name = "MOVEMENT_SS" then { m1 with SuperSet := true } else m1
    some { st4 with m := m2 }
  else if tok.name = "NOTE" then
    if st.inSession then
      some { st with s := { st.s with Notes := st.s.Notes ++ [tok.value] } }
    else if st.inPerformance then
      some { st with p := { st.p with Notes := st.p.Notes ++ [tok.value] } }
    else
      some { st with m := { st.m with Notes := st.m.Notes ++ [tok.value] } }
  else if tok.name = "REPS" then
    let r := intValue tok.value ("reps")
    some { st with s := pushErr st.s r.2, p := { st.p with Reps := r.1 } }
  else if tok.name = "SETS" then
    let r := intValue tok.value ("sets")
    some { st with s := pushErr st.s r.2, p := { st.p with Sets := r.1 } }
  else
    some st

/-- The two flush checks after the token loop (`parser.go` lines 249–255):
append the pending performance when its load is non-zero, then append the
pending movement when it has a name. -/
def finalize (st : ParseState) : Session :=
  let m := if st.p.Load ≠ 0 then
      { st.m with Performances := st.m.Performances ++ [st.p] }
    else st.m
  if m.Name ≠ "" then { st.s with Movements := st.s.Movements ++ [m] } else st.s

/-- `parse` from `parser.go`: fold `stepToken` over the token list from
`initState`, then run the end-of-stream flushes.  In Go, `parse` always
returns a `nil` error; its only abnormal exit is the `METADATA` panic,
modelled by `none`. -/
def parse (parseAny : String → Option Int) (now : Int)
    (tokens : List Token) : Option Session :=
  match tokens.foldlM (stepToken parseAny now) initState with
  | none => none
  | some st => some (finalize st)

/-- Modelled from the spec: the Scanner lives outside these sources and is
specified only through its interface — `scan(text) -> (tokens, error)`,
all-or-nothing, on an instance whose construction (`NewLexer`) may itself
fail.  A `Lexer` is therefore an arbitrary scan function, and the result of
`NewLexer` is an arbitrary `Except` value passed in as a parameter. -/
structure Lexer where
  scan : List UInt8 → Except String (List Token)

/-- The Go zero value `&Session{}` the entry points return beside an
error. -/
def zeroSession : Session :=
  { Date := 0, Errors := [], Movements := [], Metadata := [], Notes := [] }

/-- `ParseByte` from `parser.go`: build the lexer, scan, then `parse`.
The outer `Option` models a Go panic escaping `parse`; the `Option String`
in the pair is the returned Go `error` (the Go `if err != nil` branch after
`parse` is dead code, since `parse` always returns a `nil` error). -/
def ParseByte (parseAny : String → Option Int) (now : Int)
    (newLexer : Except String Lexer) (txt : List UInt8) :
    Option (Session × Option String) :=
  match newLexer with
  | Except.error e => some (zeroSession, some e)
  | Except.ok lexer =>
    match lexer.scan txt with
    | Except.error e => some (zeroSession, some ("Failed to parse: " ++ e))
    | Except.ok tokens =>
      match parse parseAny now tokens with
      | none => none
      | some s => some (s, none)

/-- Go `[]byte(txt)`: the UTF-8 bytes of the string. -/
def goStringBytes (txt : String) : List UInt8 :=
  txt.toUTF8.toList

/-- `ParseString` from `parser.go`: identical to `ParseByte` except that it
converts its string argument to bytes before scanning. -/
def ParseString (parseAny : String → Option Int) (now : Int)
    (newLexer : Except String Lexer) (txt : String) :
    Option (Session × Option String) :=
  match newLexer with
  | Except.error e => some (zeroSession, some e)
  | Except.ok lexer =>
    match lexer.scan (goStringBytes txt) with
    | Except.error e => some (zeroSession, some ("Failed to parse: " ++ e))
    | Except.ok tokens =>
      match parse parseAny now tokens with
      | none => none
      | some s => some (s, none)

/-- The `Performance` fields no token handler of `parse` writes:
`Sequence`, `Unit` and `PercentOfMax` keep their `NewPerformance`
values. -/
def perfUntouched (q : Performance) : Bool :=
  q.Sequence == 0 && q.Unit == "" && q.PercentOfMax == 0

/-- The `Movement` field no token handler of `parse` writes (`Sequence`),
together with `perfUntouched` for each of its performances. -/
def movUntouched (mv : Movement) : Bool :=
  mv.Sequence == 0 && mv.Performances.all perfUntouched

/-- The untouched-fields invariant of the whole builder state: the pending
performance, the pending movement (and its performances) and every movement
already flushed into the session satisfy `perfUntouched` / `movUntouched`. -/
def stateUntouched (st : ParseState) : Bool :=
  perfUntouched st.p && movUntouched st.m && st.s.Movements.all movUntouched

/-- The builder state right after `initState` processes `MOVEMENT Squat`:
used as a concrete sample state in witnesses. -/
def mvState : ParseState :=
  { initState with
    inSession := false,
    m := { NewMovement with Name := "Squat" } }

/-- `mvState` after a movement-scoped `NOTE easy`: used as a concrete
sample state in witnesses. -/
def mvState2 : ParseState :=
  { initState with
    inSession := false,
    m := { NewMovement with Name := "Squat", Notes := ["easy"] } }

/-- The session produced by `parse` on `MOVEMENT Sq` + `LOAD 100`: used as
a concrete sample result in witnesses. -/
def sqSession : Session :=
  { NewSession with
    Movements := [{ NewMovement with
      Name := "Sq",
      Performances := [{ NewPerformance with Load := GoFloat32.finite 100 }] }] }

theorem pushErr_Movements (s : Session) (e : Option GoError) :
    (pushErr s e).Movements = s.Movements := by
  cases e <;> rfl

theorem pushErr_Metadata (s : Session) (e : Option GoError) :
    (pushErr s e).Metadata = s.Metadata := by
  cases e <;> rfl

theorem pushErr_Notes (s : Session) (e : Option GoError) :
    (pushErr s e).Notes = s.Notes := by
  cases e <;> rfl

/-- Claim C9: for every input string, the string entry point and the byte
entry point (fed the string's byte encoding) run the very same pipeline —
same lexer construction, same scan on the same bytes, same builder — so
they return identical results; byte-to-text decoding is the only
difference between the two entry points. -/
theorem claim9_parseString_eq_parseByte (pa : String → Option Int) (now : Int)
    (newLexer : Except String Lexer) (txt : String) :
    ParseString pa now newLexer txt = ParseByte pa now newLexer (goStringBytes txt) := rfl

/-- Claim C1, evidence of the code bug: a `METADATA` token whose value has
no `":"` separator makes `parse` abort (`none` models the Go panic from
the out-of-range index `pair[1]`), instead of recording a recoverable
diagnostic and continuing as the specification requires. -/
theorem claim1_metadata_without_separator_aborts :
    parse (fun _ => none) 0 [⟨"METADATA", "nosep"⟩] = none := by decide

/-- Claim C4, evidence of the code bug: the builder does not always return
a completed `Session` — a single malformed `METADATA` token aborts the
whole parse (Go panic, modelled by `none`), losing the surrounding
well-formed tokens, contrary to the never-fails-outright contract. -/
theorem claim4_builder_aborts_on_bad_metadata :
    parse (fun _ => none) 0
      [⟨"NOTE", "warmup"⟩, ⟨"METADATA", "oops"⟩, ⟨"NOTE", "cooldown"⟩] = none := by decide

/-- Claim C6: at end of stream the pending `Performance` is flushed into
the pending `Movement` exactly when its load is non-zero, and the pending
`Movement` is appended to the session's movement list exactly when its
name is non-empty — stated as one equation on the movement list of the
returned session. -/
theorem claim6_end_of_stream_flush (st : ParseState) :
    (finalize st).Movements =
      st.s.Movements ++
        (if st.m.Name = "" then [] else
          [{ st.m with Performances :=
              st.m.Performances ++ (if st.p.Load = 0 then [] else [st.p]) }]) := by
  unfold finalize
  by_cases hl : st.p.Load = 0 <;> by_cases hn : st.m.Name = "" <;> simp [hl, hn]

/-- Claim C2, counterexample: on `REPS` with the unparseable value `"abc"`
the builder records the diagnostic but then stores 0 into `Reps`, not the
prior value — `NewPerformance.Reps = 1` is the prior (constructor) value,
yet the returned performance carries `Reps = 0`. -/
theorem claim2_counterexample :
    parse (fun _ => none) 0
        [⟨"MOVEMENT", "Squat"⟩, ⟨"LOAD", "100"⟩, ⟨"REPS", "abc"⟩] =
      some { NewSession with
        Errors := [GoError.failedParse ("reps") ("abc")],
        Movements := [{ NewMovement with
          Name := "Squat",
          Performances := [{ NewPerformance with Load := GoFloat32.finite 100, Reps := 0 }] }] }
    ∧ NewPerformance.Reps = 1 := by decide

/-- Claim C2 (amended): for every `Fails`, `Reps` or `Sets` token whose
value does not parse as an integer, the builder appends one diagnostic to
the session's error list and then writes 0 — the error-path return value
of `intValue` — into the corresponding field of the current `Performance`,
overwriting any prior value (so an unset `reps`/`sets` ends at 0, not at
its constructor default 1); the step never aborts, so subsequent tokens
are still processed. -/
theorem claim2_amended (pa : String → Option Int) (now : Int) (st : ParseState)
    (v : String) (h : goAtoi v = none) :
    stepToken pa now st ⟨"FAILS", v⟩ = some { st with
      s := { st.s with Errors := st.s.Errors ++ [GoError.failedParse ("fails") v] },
      p := { st.p with Fails := 0 } }
    ∧ stepToken pa now st ⟨"REPS", v⟩ = some { st with
      s := { st.s with Errors := st.s.Errors ++ [GoError.failedParse ("reps") v] },
      p := { st.p with Reps := 0 } }
    ∧ stepToken pa now st ⟨"SETS", v⟩ = some { st with
      s := { st.s with Errors := st.s.Errors ++ [GoError.failedParse ("sets") v] },
      p := { st.p with Sets := 0 } } := by
  refine ⟨?_, ?_, ?_⟩ <;> simp [stepToken, intValue, pushErr, h]

/-- Witness for the amended claim C2 at the concrete state `initState` and
value `"abc"`. -/
theorem claim2_amended_witness :
    goAtoi ("abc") = none
    ∧ stepToken (fun _ => none) 0 initState ⟨"REPS", "abc"⟩ = some { initState with
        s := { initState.s with
          Errors := initState.s.Errors ++ [GoError.failedParse ("reps") ("abc")] },
        p := { initState.p with Reps := 0 } } :=
  ⟨by decide, (claim2_amended (fun _ => none) 0 initState ("abc") (by decide)).2.1⟩

/-- Claim C3, counterexample: the metadata value `"\ta :b:c"` has its first
separator after `"\ta "`; the claim predicts key `"a"` (whitespace
trimmed) and value `"b:c"` (everything after the first separator), but the
builder splits at every separator, keeps only the first two pieces, and
trims space characters only — storing key `"\ta"` (tab kept) and value
`"b"` (the `":c"` tail dropped). -/
theorem claim3_counterexample :
    parse (fun _ => none) 0 [⟨"METADATA", "\ta :b:c"⟩] =
      some { NewSession with Metadata := [("\ta", "b")] }
    ∧ ("\ta", "b") ≠ ("a", "b:c") := by decide

/-- Claim C3 (amended): for every `Metadata` token whose value contains at
least one separator, the builder cuts the value at every separator
occurrence, keeps the first piece as the key and the second piece (the
text between the first and second separators — any later pieces are
dropped) as the value, trims surrounding space characters (only spaces,
not all whitespace) from both, and stores the pair in the scope selected
by the routing flags. -/
theorem claim3_amended (pa : String → Option Int) (now : Int) (st : ParseState)
    (v : String) (p0 p1 : List Char) (rest : List (List Char))
    (h : splitOnChar ':' v.toList = p0 :: p1 :: rest) :
    stepToken pa now st ⟨"METADATA", v⟩ =
      (let key := trimSpaces (String.mk p0)
       let value := trimSpaces (String.mk p1)
       if st.inSession then
         some { st with s := { st.s with Metadata := mdAssign st.s.Metadata key value } }
       else if st.inPerformance then
         some { st with p := { st.p with Metadata := mdAssign st.p.Metadata key value } }
       else
         some { st with m := { st.m with Metadata := mdAssign st.m.Metadata key value } }) := by
  have h2 : splitOnChar ':' v.data = p0 :: p1 :: rest := h
  simp [stepToken, h2]

/-- Witness for the amended claim C3 at the concrete state `initState` and
value `"a: b :c"`. -/
theorem claim3_amended_witness :
    splitOnChar ':' (String.toList ("a: b :c")) = ['a'] :: [' ', 'b', ' '] :: [['c']]
    ∧ stepToken (fun _ => none) 0 initState ⟨"METADATA", "a: b :c"⟩ =
      (let key := trimSpaces (String.mk ['a'])
       let value := trimSpaces (String.mk [' ', 'b', ' '])
       if initState.inSession then
         some { initState with s := { initState.s with
           Metadata := mdAssign initState.s.Metadata key value } }
       else if initState.inPerformance then
         some { initState with p := { initState.p with
           Metadata := mdAssign initState.p.Metadata key value } }
       else
         some { initState with m := { initState.m with
           Metadata := mdAssign initState.m.Metadata key value } }) :=
  ⟨by decide,
    claim3_amended (fun _ => none) 0 initState ("a: b :c") ['a'] [' ', 'b', ' ']
      [['c']] (by decide)⟩

/-- Claim C5: a `Metadata` pair (when its value splits) or a `Note` is
routed to exactly one scope by the fixed priority session-first,
performance-second, movement-third, decided by the two boolean flags: the
resulting state differs from the input state only in the one scope
selected — the session while `inSession` is true, otherwise the current
performance while `inPerformance` is true, otherwise the current
movement. -/
theorem claim5_scope_routing (pa : String → Option Int) (now : Int) (st : ParseState)
    (v : String) (p0 p1 : List Char) (rest : List (List Char))
    (h : splitOnChar ':' v.toList = p0 :: p1 :: rest) :
    (st.inSession = true →
      stepToken pa now st ⟨"METADATA", v⟩ = some { st with
        s := { st.s with Metadata := (mdAssign st.s.Metadata
          (trimSpaces (String.mk p0)) (trimSpaces (String.mk p1))) } }
      ∧ stepToken pa now st ⟨"NOTE", v⟩ = some { st with
        s := { st.s with Notes := st.s.Notes ++ [v] } })
    ∧ (st.inSession = false → st.inPerformance = true →
      stepToken pa now st ⟨"METADATA", v⟩ = some { st with
        p := { st.p with Metadata := (mdAssign st.p.Metadata
          (trimSpaces (String.mk p0)) (trimSpaces (String.mk p1))) } }
      ∧ stepToken pa now st ⟨"NOTE", v⟩ = some { st with
        p := { st.p with Notes := st.p.Notes ++ [v] } })
    ∧ (st.inSession = false → st.inPerformance = false →
      stepToken pa now st ⟨"METADATA", v⟩ = some { st with
        m := { st.m with Metadata := (mdAssign st.m.Metadata
          (trimSpaces (String.mk p0)) (trimSpaces (String.mk p1))) } }
      ∧ stepToken pa now st ⟨"NOTE", v⟩ = some { st with
        m := { st.m with Notes := st.m.Notes ++ [v] } }) := by
  have h2 : splitOnChar ':' v.data = p0 :: p1 :: rest := h
  refine ⟨fun h1 => ⟨?_, ?_⟩, fun h1 hp => ⟨?_, ?_⟩, fun h1 hp => ⟨?_, ?_⟩⟩ <;>
    simp [stepToken, h2, h1]
  all_goals simp [hp]

/-- Witness for claim C5 at the concrete state `initState` (which is in
session scope) and metadata value `"key: val"`. -/
theorem claim5_scope_routing_witness :
    splitOnChar ':' (String.toList ("key: val")) =
      ['k', 'e', 'y'] :: [' ', 'v', 'a', 'l'] :: []
    ∧ initState.inSession = true
    ∧ (stepToken (fun _ => none) 0 initState ⟨"METADATA", "key: val"⟩ =
        some { initState with
          s := { initState.s with Metadata := (mdAssign initState.s.Metadata
            (trimSpaces (String.mk ['k', 'e', 'y']))
            (trimSpaces (String.mk [' ', 'v', 'a', 'l']))) } }
      ∧ stepToken (fun _ => none) 0 initState ⟨"NOTE", "key: val"⟩ =
        some { initState with
          s := { initState.s with Notes := initState.s.Notes ++ ["key: val"] } }) :=
  ⟨by decide, by decide,
    (claim5_scope_routing (fun _ => none) 0 initState ("key: val")
      ['k', 'e', 'y'] [' ', 'v', 'a', 'l'] [] (by decide)).1 (by decide)⟩

set_option maxHeartbeats 2000000 in
theorem stepToken_session_frozen (pa : String → Option Int) (now : Int)
    (st : ParseState) (tok : Token) (st2 : ParseState)
    (h : st.inSession = false) (hstep : stepToken pa now st tok = some st2) :
    st2.inSession = false ∧ st2.s.Metadata = st.s.Metadata ∧ st2.s.Notes = st.s.Notes := by
  cases hp : st.inPerformance <;>
    (simp only [stepToken, h, hp, Bool.false_eq_true, if_false, if_true,
       reduceIte] at hstep
     repeat' split at hstep
     all_goals first
       | exact Option.noConfusion hstep
       | (injection hstep with h2; subst h2;
          simp [pushErr_Metadata, pushErr_Notes, h]))

theorem foldSession_frozen (pa : String → Option Int) (now : Int) (tks : List Token) :
    ∀ st st2 : ParseState, st.inSession = false →
      tks.foldlM (stepToken pa now) st = some st2 →
      st2.inSession = false ∧ st2.s.Metadata = st.s.Metadata ∧ st2.s.Notes = st.s.Notes := by
  induction tks with
  | nil =>
    intro st st2 h hfold
    simp only [List.foldlM_nil] at hfold
    injection hfold with h2
    subst h2
    exact ⟨h, rfl, rfl⟩
  | cons t ts ih =>
    intro st st2 h hfold
    rw [List.foldlM_cons] at hfold
    cases hstep : stepToken pa now st t with
    | none => rw [hstep] at hfold; exact Option.noConfusion hfold
    | some st1 =>
      rw [hstep] at hfold
      simp only [Option.bind_eq_bind, Option.some_bind] at hfold
      obtain ⟨h1, hm1, hn1⟩ := stepToken_session_frozen pa now st t st1 h hstep
      obtain ⟨h2, hm2, hn2⟩ := ih st1 st2 h1 hfold
      exact ⟨h2, hm2.trans hm1, hn2.trans hn1⟩

set_option maxHeartbeats 2000000 in
theorem stepToken_movement_leaves_session (pa : String → Option Int) (now : Int)
    (st : ParseState) (v : String) (ss : Bool) (st1 : ParseState)
    (hmov : stepToken pa now st ⟨(if ss then "MOVEMENT_SS" else "MOVEMENT"), v⟩ = some st1) :
    st1.inSession = false := by
  cases ss <;> cases hp : st.inPerformance <;>
    (simp [stepToken, hp] at hmov
     repeat' split at hmov
     all_goals first
       | exact Option.noConfusion hmov
       | (subst hmov; rfl))

set_option maxHeartbeats 2000000 in
theorem stepToken_untouched (pa : String → Option Int) (now : Int)
    (st : ParseState) (tok : Token) (st2 : ParseState)
    (h : stateUntouched st = true) (hstep : stepToken pa now st tok = some st2) :
    stateUntouched st2 = true := by
  cases hp : st.inPerformance <;> cases hs : st.inSession <;>
    (simp only [stepToken, hp, hs, Bool.false_eq_true, Bool.true_eq_false,
       reduceIte] at hstep
     repeat' split at hstep
     all_goals first
       | exact Option.noConfusion hstep
       | (injection hstep with h2; subst h2;
          simp_all [stateUntouched, movUntouched, perfUntouched, NewPerformance,
            NewMovement, pushErr_Movements, List.all_append]
          try exact fun x hx => (h.2 x hx).2))

theorem foldUntouched (pa : String → Option Int) (now : Int) (tks : List Token) :
    ∀ st st2 : ParseState, stateUntouched st = true →
      tks.foldlM (stepToken pa now) st = some st2 → stateUntouched st2 = true := by
  induction tks with
  | nil =>
    intro st st2 h hfold
    simp only [List.foldlM_nil] at hfold
    injection hfold with h2
    subst h2
    exact h
  | cons t ts ih =>
    intro st st2 h hfold
    rw [List.foldlM_cons] at hfold
    cases hstep : stepToken pa now st t with
    | none => rw [hstep] at hfold; exact Option.noConfusion hfold
    | some st1 =>
      rw [hstep] at hfold
      simp only [Option.bind_eq_bind, Option.some_bind] at hfold
      exact ih st1 st2 (stepToken_untouched pa now st t st1 h hstep) hfold

/-- Claim C7, counterexample: two consecutive `Load` tokens with no
`Movement` between them do not always yield two performances — when the
trailing load parses to 0 the end-of-stream flush drops it, leaving the
movement with one performance, not two. -/
theorem claim7_counterexample :
    (parse (fun _ => none) 0
        [⟨"MOVEMENT", "Sq"⟩, ⟨"LOAD", "100"⟩, ⟨"LOAD", "0"⟩]).map
      (fun s => s.Movements.map fun mv => mv.Performances.length) = some [1]
    ∧ (1 : Nat) ≠ 2 := by decide

/-- Claim C7 (amended): a `Load` token arriving while a performance is
open first flushes that performance into the current movement and then
starts a fresh performance carrying the newly parsed load; hence a token
stream ending in two consecutive `Load` tokens (no `Movement` between
them) leaves the movement with two performances, in token order, provided
the second load's `float32` parse yields a non-zero value (when the parse
fails — bad syntax or a `float32` range error, e.g. `1e200` — or the value
rounds to `float32` zero, the trailing performance carries load 0 and is
dropped by the end-of-stream flush; a `Load` arriving with no open
performance writes into the existing current performance). -/
theorem claim7_two_loads (pa : String → Option Int) (now : Int) (st : ParseState)
    (v1 v2 : String) :
    (st.inPerformance = true →
      stepToken pa now st ⟨"LOAD", v1⟩ = some { st with
        m := { st.m with Performances := st.m.Performances ++ [st.p] },
        p := { NewPerformance with Load := (floatValue v1 ("load")).1 },
        s := pushErr st.s (floatValue v1 ("load")).2,
        inPerformance := true })
    ∧ (st.inPerformance = false → st.m.Name ≠ "" → (floatValue v2 ("load")).1 ≠ 0 →
      ((stepToken pa now st ⟨"LOAD", v1⟩).bind
          (fun stm => stepToken pa now stm ⟨"LOAD", v2⟩)).map
        (fun stz => (finalize stz).Movements) =
      some (st.s.Movements ++ [{ st.m with Performances := st.m.Performances ++
        [{ st.p with Load := (floatValue v1 ("load")).1 },
         { NewPerformance with Load := (floatValue v2 ("load")).1 }] }])) := by
  constructor
  · intro hp
    simp [stepToken, hp]
  · intro hp hn h2
    simp [stepToken, finalize, hp, hn, h2, pushErr_Movements]

/-- Witness for claim C7 at the concrete state `mvState` (movement
`"Squat"` open, no performance open) and loads `"100"`, `"80"`. -/
theorem claim7_two_loads_witness :
    mvState.inPerformance = false
    ∧ mvState.m.Name ≠ ""
    ∧ (floatValue ("80") ("load")).1 ≠ 0
    ∧ ((stepToken (fun _ => none) 0 mvState ⟨"LOAD", "100"⟩).bind
          (fun stm => stepToken (fun _ => none) 0 stm ⟨"LOAD", "80"⟩)).map
        (fun stz => (finalize stz).Movements) =
      some (mvState.s.Movements ++ [{ mvState.m with
        Performances := mvState.m.Performances ++
          [{ mvState.p with Load := (floatValue ("100") ("load")).1 },
           { NewPerformance with Load := (floatValue ("80") ("load")).1 }] }]) :=
  ⟨by decide, by decide, by decide,
    (claim7_two_loads (fun _ => none) 0 mvState ("100") ("80")).2
      (by decide) (by decide) (by decide)⟩

/-- Claim C8: once a `Movement` or `MovementSuperset` token has been
processed the builder is out of session scope for good — `inSession` is
false right after the movement token and after every further token, so the
session's metadata and notes never change again. -/
theorem claim8_session_scope_permanent (pa : String → Option Int) (now : Int)
    (st st1 st2 : ParseState) (v : String) (ss : Bool) (tks : List Token)
    (hmov : stepToken pa now st ⟨(if ss then "MOVEMENT_SS" else "MOVEMENT"), v⟩ = some st1)
    (hrest : tks.foldlM (stepToken pa now) st1 = some st2) :
    st1.inSession = false ∧ st2.inSession = false
    ∧ st2.s.Metadata = st1.s.Metadata ∧ st2.s.Notes = st1.s.Notes := by
  have h1 := stepToken_movement_leaves_session pa now st v ss st1 hmov
  obtain ⟨h2, hm, hn⟩ := foldSession_frozen pa now tks st1 st2 h1 hrest
  exact ⟨h1, h2, hm, hn⟩

/-- Witness for claim C8: a `MOVEMENT Squat` token processed from
`initState`, followed by a movement-scoped note. -/
theorem claim8_session_scope_permanent_witness :
    stepToken (fun _ => none) 0 initState
        ⟨(if false then "MOVEMENT_SS" else "MOVEMENT"), "Squat"⟩ = some mvState
    ∧ ([⟨"NOTE", "easy"⟩] : List Token).foldlM (stepToken (fun _ => none) 0) mvState =
      some mvState2
    ∧ (mvState.inSession = false ∧ mvState2.inSession = false
      ∧ mvState2.s.Metadata = mvState.s.Metadata
      ∧ mvState2.s.Notes = mvState.s.Notes) :=
  ⟨by decide, by decide,
    claim8_session_scope_permanent (fun _ => none) 0 initState mvState mvState2
      ("Squat") false [⟨"NOTE", "easy"⟩] (by decide) (by decide)⟩

/-- Claim C10: in every session the builder returns, each movement has
`Sequence = 0` and each of its performances has `Sequence = 0`,
`Unit = ""` and `PercentOfMax = 0` (see `movUntouched` / `perfUntouched`):
no token handler ever writes these fields. -/
theorem claim10_untouched_fields (pa : String → Option Int) (now : Int)
    (tks : List Token) (s : Session) (h : parse pa now tks = some s) :
    s.Movements.all movUntouched = true := by
  unfold parse at h
  cases hfold : tks.foldlM (stepToken pa now) initState with
  | none => rw [hfold] at h; exact Option.noConfusion h
  | some st =>
    rw [hfold] at h
    injection h with h2
    subst h2
    have hst := foldUntouched pa now tks initState st (by decide) hfold
    simp only [stateUntouched, Bool.and_eq_true] at hst
    obtain ⟨⟨hp1, hm1⟩, hs1⟩ := hst
    by_cases hl : st.p.Load = 0 <;> by_cases hn : st.m.Name = "" <;>
      simp [finalize, hl, hn, List.all_append, hs1] <;>
      simp_all [movUntouched, perfUntouched, List.all_append]

/-- Witness for claim C10 on the concrete parse of `MOVEMENT Sq` +
`LOAD 100`. -/
theorem claim10_untouched_fields_witness :
    parse (fun _ => none) 0 [⟨"MOVEMENT", "Sq"⟩, ⟨"LOAD", "100"⟩] = some sqSession
    ∧ sqSession.Movements.all movUntouched = true :=
  ⟨by decide,
    claim10_untouched_fields (fun _ => none) 0
      [⟨"MOVEMENT", "Sq"⟩, ⟨"LOAD", "100"⟩] sqSession (by decide)⟩

end Traindown
